import Mathlib

set_option linter.unusedVariables false
set_option linter.unusedSectionVars false

/-!
Verification development for the AMReX multigrid solver core (MLMG) and the
FArrayBox NaN scan.

The `FArrayBox.contains_nan` host path is embedded directly from
`Src/Base/AMReX_FArrayBox.H`.  The MLMG solve driver is only declared in the
repository excerpt (`Src/LinearSolvers/MLMG/AMReX_MLMG.H`); its algorithm is
modelled from the specification, with each such definition marked
`Modelled from the spec:` in its doc comment.
-/

namespace AmrexProof

/-!
## FArrayBox and its host-path NaN scan

From `Src/Base/AMReX_FArrayBox.H`.  A `Box` is the inclusive index range
`[lox,hix] x [loy,hiy] x [loz,hiz]` (the lbound/ubound pair used by the
host loops).  Machine `Real` values are abstracted by a type `V` together
with the predicate `isnan : V -> Bool` standing for `amrex::isnan`; the only
operation the scan performs on a value is this test.  The member function is
`const` in the source; correspondingly it is embedded as a pure function of
the fab, which by construction cannot modify it.
-/

/-- An axis-aligned cell-index box with inclusive lower and upper corners,
as produced by `amrex::lbound`/`amrex::ubound` in the host loops. -/
structure Box where
  lox : Int
  loy : Int
  loz : Int
  hix : Int
  hiy : Int
  hiz : Int
deriving DecidableEq

/-- Cell `(i,j,k)` lies in the box (all three coordinates within the
inclusive bounds). -/
def Box.containsCell (bx : Box) (i j k : Int) : Prop :=
  bx.lox ≤ i ∧ i ≤ bx.hix ∧ bx.loy ≤ j ∧ j ≤ bx.hiy ∧ bx.loz ≤ k ∧ k ≤ bx.hiz

instance (bx : Box) (i j k : Int) : Decidable (bx.containsCell i j k) := by
  unfold Box.containsCell; infer_instance

/-- `b1` contains `b2`: componentwise bound inclusion, as in
`Box::contains` used by the `BL_ASSERT(domain.contains(bx))` check. -/
def Box.containsBox (b1 b2 : Box) : Prop :=
  b1.lox ≤ b2.lox ∧ b1.loy ≤ b2.loy ∧ b1.loz ≤ b2.loz ∧
  b2.hix ≤ b1.hix ∧ b2.hiy ≤ b1.hiy ∧ b2.hiz ≤ b1.hiz

instance (b1 b2 : Box) : Decidable (b1.containsBox b2) := by
  unfold Box.containsBox; infer_instance

/-- A `FArrayBox` (Fortran array box): a `domain` box, the number of
components `nvar`, and the accessor `a i j k n` corresponding to the
`Array4` view `a(i,j,k,n)` used by `contains_nan`. -/
structure FArrayBox (V : Type) where
  domain : Box
  nvar : Nat
  a : Int → Int → Int → Nat → V

/-- The inclusive integer range `[lo, hi]` traversed by a C++ loop
`for (x = lo; x <= hi; ++x)`; empty when `hi < lo`. -/
def intRange (lo hi : Int) : List Int :=
  (List.range (hi + 1 - lo).toNat).map (fun t : Nat => lo + t)

theorem mem_intRange {lo hi a : Int} : a ∈ intRange lo hi ↔ lo ≤ a ∧ a ≤ hi := by
  simp only [intRange, List.mem_map, List.mem_range]
  constructor
  · rintro ⟨t, ht, h⟩
    omega
  · rintro ⟨h1, h2⟩
    exact ⟨(a - lo).toNat, by omega, by omega⟩

/-- Host path of `FArrayBox::contains_nan(const Box& bx, int scomp, int ncomp)`
(`AMReX_FArrayBox.H`, lines 540-586): loop over components
`n = scomp .. scomp+ncomp-1` (outermost), then cells `k`, `j`, `i` over the
inclusive bounds of `bx`, returning `true` at the first value for which
`amrex::isnan` holds and `false` if none is found.  The early `return true`
of the source is the `List.any` short-circuit. -/
def FArrayBox.contains_nan {V : Type} (isnan : V → Bool) (fab : FArrayBox V)
    (bx : Box) (scomp ncomp : Nat) : Bool :=
  (List.range ncomp).any fun dn =>
    (intRange bx.loz bx.hiz).any fun k =>
      (intRange bx.loy bx.hiy).any fun j =>
        (intRange bx.lox bx.hix).any fun i =>
          isnan (fab.a i j k (scomp + dn))

/-- C10: for every `FArrayBox` `fab`, box `bx` contained in `fab`'s domain, and
`scomp`, `ncomp` with `ncomp ≥ 1`, `scomp < fab.nComp()` and `ncomp ≤ fab.nComp()`,
the host path of `fab.contains_nan(bx, scomp, ncomp)` returns `true` iff some
cell `(i,j,k)` of `bx` and component `n ∈ [scomp, scomp+ncomp)` holds a NaN
value.  (`scomp ≥ 0` is implicit in `scomp : Nat`; the source method is
`const`, matching the pure embedding, so the call cannot modify `fab`.) -/
theorem contains_nan_iff {V : Type} (isnan : V → Bool) (fab : FArrayBox V) (bx : Box)
    (scomp ncomp : Nat) (h1 : 1 ≤ ncomp) (h2 : scomp < fab.nvar)
    (h3 : ncomp ≤ fab.nvar) (h4 : fab.domain.containsBox bx) :
    fab.contains_nan isnan bx scomp ncomp = true ↔
      ∃ i j k : Int, ∃ n : Nat, bx.containsCell i j k ∧ scomp ≤ n ∧ n < scomp + ncomp ∧
        isnan (fab.a i j k n) = true := by
  simp only [FArrayBox.contains_nan, List.any_eq_true, List.mem_range, mem_intRange,
    Box.containsCell]
  constructor
  · rintro ⟨dn, hdn, k, ⟨hk1, hk2⟩, j, ⟨hj1, hj2⟩, i, ⟨hi1, hi2⟩, hnan⟩
    exact ⟨i, j, k, scomp + dn, ⟨hi1, hi2, hj1, hj2, hk1, hk2⟩, Nat.le_add_right _ _,
      by omega, hnan⟩
  · rintro ⟨i, j, k, n, ⟨hi1, hi2, hj1, hj2, hk1, hk2⟩, hn1, hn2, hnan⟩
    refine ⟨n - scomp, by omega, k, ⟨hk1, hk2⟩, j, ⟨hj1, hj2⟩, i, ⟨hi1, hi2⟩, ?_⟩
    have h : scomp + (n - scomp) = n := by omega
    rw [h]
    exact hnan

/-- A concrete two-component fab on the box `[0,1]^3` whose component 0 holds a
NaN marker exactly at cells with `i = 1`; used to instantiate the NaN-scan
theorem on concrete data. -/
def fabW : FArrayBox Bool :=
  { domain := ⟨0, 0, 0, 1, 1, 1⟩
    nvar := 2
    a := fun i _ _ n => decide (i = 1) && decide (n = 0) }

theorem contains_nan_iff_witness :
    (1 ≤ 2 ∧ 0 < fabW.nvar ∧ 2 ≤ fabW.nvar ∧ fabW.domain.containsBox fabW.domain) ∧
    (fabW.contains_nan id fabW.domain 0 2 = true ↔
      ∃ i j k : Int, ∃ n : Nat, fabW.domain.containsCell i j k ∧ 0 ≤ n ∧ n < 0 + 2 ∧
        id (fabW.a i j k n) = true) :=
  ⟨⟨by decide, by decide, by decide, by decide⟩,
   contains_nan_iff id fabW fabW.domain 0 2 (by decide) (by decide) (by decide) (by decide)⟩

/-!
## The MLMG cycle engine

`AMReX_MLMG.H` only declares the engine (members, defaults, accessors); the
solve driver's body is not part of the repository excerpt.  The driver is
therefore modelled from the specification (sections 3, 4.1, 4.3 and 7 of the
spec).  Scalar norms and tolerances live in an arbitrary linearly ordered
ring `R` standing for `amrex::Real`; per-level fields are opaque values of a
type `α` (the spec's `Any`), and the operator contract is a bundle of
abstract functions.
-/

namespace MLMG

variable {R : Type} [LinearOrderedRing R] {α : Type}

/-- Scalar configuration knobs of the engine with the default values of
`AMReX_MLMG.H` lines 181-199; set before `solve` and immutable during it. -/
structure Config where
  max_iters : Nat := 200
  do_fixed_number_of_iters : Nat := 0
  always_use_bnorm : Bool := false

/-- Modelled from the spec: the abstract operator contract and hierarchy
shape consumed by the cycle engine (spec sections 2 and 6), which the
repository excerpt leaves external.  `namrlevs` counts AMR levels
(0 = coarsest), `nmglevs alev` counts MG levels inside AMR level `alev`
(0 = finest).  `compResField alev sol rhs` is the composite residual field
the residual walk stores at `(alev, 0)`; `normInf` is the infinity norm of a
field; `cycleSol sol rhs` is the solution produced by one full V/F-cycle;
`corAfterCycle`/`rescorAfterCycle` are the transient correction contents a
cycle leaves behind; `bottomIters` is the bottom-solver iteration count one
cycle reports; `zero` is the zero field. -/
structure OpModel (R : Type) (α : Type) where
  namrlevs : Nat
  nmglevs : Nat → Nat
  compResField : Nat → List α → List α → α
  normInf : α → R
  cycleSol : List α → List α → List α
  corAfterCycle : List α → List α → List (List α)
  rescorAfterCycle : List α → List α → List (List α)
  bottomIters : Nat
  zero : α

/-- Modelled from the spec: freshly allocated (zeroed) per-(AMR,MG)-level
storage, outer index AMR level, inner index MG level. -/
def zeroAlloc (m : OpModel R α) : List (List α) :=
  (List.range m.namrlevs).map (fun alev => List.replicate (m.nmglevs alev) m.zero)

/-- Modelled from the spec: the engine's per-solve mutable state — the
solution estimate `sol`, the per-(AMR,MG) buffers `res`/`cor`/`rescor`
(outer index AMR level, 0 = coarsest; inner index MG level, 0 = finest),
and the per-iteration diagnostics. -/
structure IterState (R : Type) (α : Type) where
  sol : List α
  res : List (List α)
  cor : List (List α)
  rescor : List (List α)
  iterFineResnorm : List R
  nitersCg : List Nat

/-- Store a residual field into slot `res[alev][0]`. -/
def setRes0 (res : List (List α)) (alev : Nat) (v : α) : List (List α) :=
  res.set alev ((res.getD alev []).set 0 v)

/-- Modelled from the spec: `computeMLResidual(amrlevmax)` walks AMR levels
from `amrlevmax` down to `0`, storing the composite residual of the current
solution at `res[alev][0]` (spec section 4.3). -/
def computeMLResidual (m : OpModel R α) (sol rhs : List α) :
    Nat → List (List α) → List (List α)
  | 0, r => setRes0 r 0 (m.compResField 0 sol rhs)
  | amax + 1, r =>
      computeMLResidual m sol rhs amax
        (setRes0 r (amax + 1) (m.compResField (amax + 1) sol rhs))

/-- Modelled from the spec: `ResNormInf(alev)` — the infinity norm of the
residual held at `res[alev][0]`. -/
def ResNormInf (m : OpModel R α) (res : List (List α)) (alev : Nat) : R :=
  m.normInf ((res.getD alev []).getD 0 m.zero)

/-- Modelled from the spec: `MLResNormInf(alevmax)` — the max of the
per-level residual norms over AMR levels `0 .. alevmax`. -/
def MLResNormInf (m : OpModel R α) (res : List (List α)) (alevmax : Nat) : R :=
  ((List.range (alevmax + 1)).map (ResNormInf m res)).foldl max 0

/-- Modelled from the spec: `MLRhsNormInf` — the max of the right-hand
side's per-level infinity norms. -/
def MLRhsNormInf (m : OpModel R α) (rhs : List α) : R :=
  ((List.range m.namrlevs).map (fun alev => m.normInf (rhs.getD alev m.zero))).foldl max 0

/-- Modelled from the spec: at cycle start the transient `cor`/`rescor`
buffers are zeroed/reallocated, whatever the previous cycle left in them. -/
def cycleStart (m : OpModel R α) (st : IterState R α) : IterState R α :=
  { st with cor := zeroAlloc m, rescor := zeroAlloc m }

/-- Modelled from the spec: `oneIter` — one solver iteration: zero the
transient buffers, run one full cycle updating `sol`, recompute the
composite residual on every AMR level, and record the finest-level residual
norm and the bottom-solver iteration count in the diagnostics. -/
def oneIter (m : OpModel R α) (rhs : List α) (st : IterState R α) : IterState R α :=
  let st1 := cycleStart m st
  let sol1 := m.cycleSol st1.sol rhs
  let res1 := computeMLResidual m sol1 rhs (m.namrlevs - 1) st1.res
  { sol := sol1
    res := res1
    cor := m.corAfterCycle st1.sol rhs
    rescor := m.rescorAfterCycle st1.sol rhs
    iterFineResnorm := st.iterFineResnorm ++ [ResNormInf m res1 (m.namrlevs - 1)]
    nitersCg := st.nitersCg ++ [m.bottomIters] }

/-- Modelled from the spec: `prepareForSolve` — allocate the per-level
buffers, take `sol` from the caller, and compute the initial composite
residual into `res`; the per-solve diagnostics start empty. -/
def prepareForSolve (m : OpModel R α) (a_sol a_rhs : List α) : IterState R α :=
  { sol := a_sol
    res := computeMLResidual m a_sol a_rhs (m.namrlevs - 1) (zeroAlloc m)
    cor := zeroAlloc m
    rescor := zeroAlloc m
    iterFineResnorm := []
    nitersCg := [] }

/-- Modelled from the spec: the convergence target
`max(tol_rel * rhs_or_resid_norm, tol_abs)`, where the reference norm is the
rhs norm when `always_use_bnorm` is set and otherwise the larger of the rhs
norm and the initial residual norm. -/
def resTarget (cfg : Config) (tol_rel tol_abs rhsnorm0 resnorm0 : R) : R :=
  let max_norm := if cfg.always_use_bnorm then rhsnorm0 else max rhsnorm0 resnorm0
  max (tol_rel * max_norm) tol_abs

/-- The initial composite residual norm `m_init_resnorm0` of a solve. -/
def initResnorm (m : OpModel R α) (a_sol a_rhs : List α) : R :=
  MLResNormInf m (prepareForSolve m a_sol a_rhs).res (m.namrlevs - 1)

/-- The convergence target of a solve call. -/
def solveTarget (m : OpModel R α) (cfg : Config) (a_sol a_rhs : List α)
    (tol_rel tol_abs : R) : R :=
  resTarget cfg tol_rel tol_abs (MLRhsNormInf m a_rhs) (initResnorm m a_sol a_rhs)

/-- Modelled from the spec: the iteration loop (spec section 4.1 step 3) —
up to the given number of iterations, perform `oneIter` and re-check
convergence of the recomputed composite residual; the loop breaks early on
convergence only when fixed-iteration mode is off.  Returns the final state
and the number of cycles performed. -/
def runIters (m : OpModel R α) (cfg : Config) (rhs : List α) (target : R) :
    Nat → IterState R α → IterState R α × Nat
  | 0, st => (st, 0)
  | n + 1, st =>
      let st1 := oneIter m rhs st
      if cfg.do_fixed_number_of_iters = 0 ∧
          MLResNormInf m st1.res (m.namrlevs - 1) ≤ target then
        (st1, 1)
      else
        let p := runIters m cfg rhs target n st1
        (p.1, p.2 + 1)

/-- What a finished solve exposes to the caller: the (in-place updated)
solution, the caller's untouched right-hand side, and the queryable
diagnostics of `AMReX_MLMG.H` lines 169-177. -/
structure SolveResult (R : Type) (α : Type) where
  sol : List α
  rhs : List α
  iters : Nat
  resHistory : List R
  nitersCg : List Nat
  initResnorm0 : R
  finalResnorm0 : R
  rhsnorm0 : R
  returnValue : R

/-- Modelled from the spec: the solve driver (spec section 4.1) — prepare,
test the initial residual against `max(tol_rel * rhs_or_resid_norm, tol_abs)`
and stop with zero iterations if it already satisfies it, otherwise iterate
(`max_iters` iterations, or exactly `do_fixed_number_of_iters` when that
override is set) and finalize.  The achieved composite residual norm is the
function's return value. -/
def solveCore (m : OpModel R α) (cfg : Config) (a_sol a_rhs : List α)
    (tol_rel tol_abs : R) : SolveResult R α :=
  let st0 := prepareForSolve m a_sol a_rhs
  let rn := initResnorm m a_sol a_rhs
  let bn := MLRhsNormInf m a_rhs
  let target := solveTarget m cfg a_sol a_rhs tol_rel tol_abs
  if rn ≤ target then
    { sol := a_sol, rhs := a_rhs, iters := 0, resHistory := [], nitersCg := []
      initResnorm0 := rn, finalResnorm0 := rn, rhsnorm0 := bn, returnValue := rn }
  else
    let niters := if cfg.do_fixed_number_of_iters = 0 then cfg.max_iters
                  else cfg.do_fixed_number_of_iters
    let p := runIters m cfg a_rhs target niters st0
    let fin := MLResNormInf m p.1.res (m.namrlevs - 1)
    { sol := p.1.sol, rhs := a_rhs, iters := p.2, resHistory := p.1.iterFineResnorm
      nitersCg := p.1.nitersCg, initResnorm0 := rn, finalResnorm0 := fin
      rhsnorm0 := bn, returnValue := fin }

/-- The fatal abort raised on a caller precondition violation (spec
section 7: programmer error, not recoverable mid-solve). -/
inductive MLMGError
  | fatalAbort
deriving DecidableEq

/-- Modelled from the spec: the caller preconditions of `solve` — the `sol`
and `rhs` vectors have exactly `namrlevs` entries and the operator is bound
to matching level geometry. -/
def precondOK (m : OpModel R α) (linop_bound : Bool) (a_sol a_rhs : List α) : Bool :=
  (a_sol.length == m.namrlevs) && (a_rhs.length == m.namrlevs) && linop_bound

/-- Modelled from the spec: the public `solve` entry point — validate the
caller preconditions, aborting fatally on a violation, and otherwise run the
solve driver. -/
def solve (m : OpModel R α) (cfg : Config) (linop_bound : Bool)
    (a_sol a_rhs : List α) (tol_rel tol_abs : R) :
    Except MLMGError (SolveResult R α) :=
  if precondOK m linop_bound a_sol a_rhs then
    Except.ok (solveCore m cfg a_sol a_rhs tol_rel tol_abs)
  else
    Except.error MLMGError.fatalAbort

/-- The per-solve diagnostic counters held on the engine instance
(`m_iter_fine_resnorm0`, `m_niters_cg` of `AMReX_MLMG.H` lines 268-269). -/
structure Diagnostics (R : Type) where
  m_iter_fine_resnorm0 : List R
  m_niters_cg : List Nat

/-- `getNumIters` of `AMReX_MLMG.H` line 176: the size of
`m_iter_fine_resnorm0`. -/
def getNumIters (d : Diagnostics R) : Nat := d.m_iter_fine_resnorm0.length

/-- Modelled from the spec: a solve on an engine instance that still holds
the diagnostics of an earlier solve — the counters are reset at the start of
each solve, so the stale `prevDiag` is discarded and the engine ends up with
exactly this solve's diagnostics. -/
def solveWithEngine (m : OpModel R α) (cfg : Config) (prevDiag : Diagnostics R)
    (linop_bound : Bool) (a_sol a_rhs : List α) (tol_rel tol_abs : R) :
    Except MLMGError (SolveResult R α × Diagnostics R) :=
  (solve m cfg linop_bound a_sol a_rhs tol_rel tol_abs).map
    (fun r => (r, { m_iter_fine_resnorm0 := r.resHistory, m_niters_cg := r.nitersCg }))

/-- A concrete one-AMR-level, two-MG-level operator model over integer
scalars: `L` is the identity, so the composite residual is `rhs - sol` and
one cycle solves exactly (`cycleSol` returns `rhs`). -/
def demoOp : OpModel Int Int :=
  { namrlevs := 1
    nmglevs := fun _ => 2
    compResField := fun _ sol rhs => rhs.getD 0 0 - sol.getD 0 0
    normInf := fun x => |x|
    cycleSol := fun _ rhs => rhs
    corAfterCycle := fun _ _ => [[0, 0]]
    rescorAfterCycle := fun _ _ => [[0, 0]]
    bottomIters := 1
    zero := 0 }

/-- A concrete operator model whose cycle makes no progress (the solution is
returned unchanged), so a solve with an unsatisfiable tolerance runs into
its iteration bound. -/
def stallOp : OpModel Int Int :=
  { demoOp with cycleSol := fun sol _ => sol }

/-- C1: if the initial composite residual norm already satisfies
`max(tol_rel * rhs_or_resid_norm, tol_abs)`, `solve` returns immediately:
it performs zero cycles, records no residual history, leaves the caller's
solution unchanged, and returns the initial residual norm. -/
theorem solve_zero_iters (m : OpModel R α) (cfg : Config) (linop_bound : Bool)
    (a_sol a_rhs : List α) (tol_rel tol_abs : R)
    (hpre : precondOK m linop_bound a_sol a_rhs = true)
    (hconv : initResnorm m a_sol a_rhs ≤ solveTarget m cfg a_sol a_rhs tol_rel tol_abs) :
    solve m cfg linop_bound a_sol a_rhs tol_rel tol_abs =
      Except.ok (solveCore m cfg a_sol a_rhs tol_rel tol_abs) ∧
    (solveCore m cfg a_sol a_rhs tol_rel tol_abs).iters = 0 ∧
    (solveCore m cfg a_sol a_rhs tol_rel tol_abs).sol = a_sol ∧
    (solveCore m cfg a_sol a_rhs tol_rel tol_abs).resHistory = [] ∧
    (solveCore m cfg a_sol a_rhs tol_rel tol_abs).returnValue = initResnorm m a_sol a_rhs := by
  refine ⟨by simp [solve, hpre], ?_, ?_, ?_, ?_⟩ <;> simp [solveCore, hconv]

theorem solve_zero_iters_witness :
    (precondOK demoOp true [(5 : Int)] [5] = true ∧
      initResnorm demoOp [(5 : Int)] [5] ≤ solveTarget demoOp {} [(5 : Int)] [5] 0 0) ∧
    (solve demoOp {} true [(5 : Int)] [5] 0 0 =
        Except.ok (solveCore demoOp {} [(5 : Int)] [5] 0 0) ∧
      (solveCore demoOp {} [(5 : Int)] [5] 0 0).iters = 0 ∧
      (solveCore demoOp {} [(5 : Int)] [5] 0 0).sol = [5] ∧
      (solveCore demoOp {} [(5 : Int)] [5] 0 0).resHistory = [] ∧
      (solveCore demoOp {} [(5 : Int)] [5] 0 0).returnValue = initResnorm demoOp [(5 : Int)] [5]) :=
  ⟨⟨by decide, by decide⟩,
   solve_zero_iters demoOp {} true [5] [5] 0 0 (by decide) (by decide)⟩

/-- In fixed-iteration mode the loop itself always consumes its full
iteration budget: the convergence break is disabled. -/
theorem runIters_fixed_count (m : OpModel R α) (cfg : Config) (rhs : List α)
    (target : R) (hfix : cfg.do_fixed_number_of_iters ≠ 0) :
    ∀ (n : Nat) (st : IterState R α), (runIters m cfg rhs target n st).2 = n := by
  intro n
  induction n with
  | zero => intro st; rfl
  | succ k ih =>
      intro st
      simp only [runIters]
      rw [if_neg]
      · simp [ih]
      · rintro ⟨h0, -⟩
        exact hfix h0

/-- C2 counterexample: with `do_fixed_number_of_iters = 2` but an initial
residual that already satisfies the tolerance, `solve` performs `0` cycles,
not the `2` the claim demands: the zero-iteration early return (spec
section 4.1 step 2) precedes the iteration loop and is not disabled by
fixed-iteration mode. -/
theorem fixed_iters_initially_converged_cex :
    ¬ ((solveCore demoOp { do_fixed_number_of_iters := 2 } [(5 : Int)] [5] 0 0).iters = 2) := by
  decide

/-- C2 (amended): when `do_fixed_number_of_iters = N` with `N > 0` and the
initial residual does not already satisfy the tolerance target, `solve`
performs exactly `N` cycles; neither the convergence test nor `max_iters`
ends the loop early in this mode. -/
theorem solve_fixed_iters (m : OpModel R α) (cfg : Config) (a_sol a_rhs : List α)
    (tol_rel tol_abs : R) (N : Nat)
    (hfix : cfg.do_fixed_number_of_iters = N) (hN : 0 < N)
    (hnc : ¬ initResnorm m a_sol a_rhs ≤ solveTarget m cfg a_sol a_rhs tol_rel tol_abs) :
    (solveCore m cfg a_sol a_rhs tol_rel tol_abs).iters = N := by
  have hfix0 : cfg.do_fixed_number_of_iters ≠ 0 := by omega
  have hN0 : N ≠ 0 := by omega
  simp only [solveCore]
  rw [if_neg hnc]
  simp only [hfix, if_neg hN0]
  exact runIters_fixed_count m cfg a_rhs _ hfix0 N _

theorem solve_fixed_iters_witness :
    ({ do_fixed_number_of_iters := 3 : Config }.do_fixed_number_of_iters = 3 ∧ 0 < 3 ∧
      ¬ initResnorm demoOp [(0 : Int)] [1] ≤
        solveTarget demoOp { do_fixed_number_of_iters := 3 } [(0 : Int)] [1] 0 0) ∧
    (solveCore demoOp { do_fixed_number_of_iters := 3 } [(0 : Int)] [1] 0 0).iters = 3 :=
  ⟨⟨by decide, by decide, by decide⟩,
   solve_fixed_iters demoOp { do_fixed_number_of_iters := 3 } [0] [1] 0 0 3
     (by decide) (by decide) (by decide)⟩

/-- When no iterate within the budget satisfies the tolerance and
fixed-iteration mode is off, the loop runs its full budget and ends in the
`n`-fold iterated state. -/
theorem runIters_no_conv (m : OpModel R α) (cfg : Config) (rhs : List α)
    (target : R) (hfix : cfg.do_fixed_number_of_iters = 0) :
    ∀ (n : Nat) (st : IterState R α),
      (∀ j, j < n →
        ¬ MLResNormInf m ((oneIter m rhs)^[j + 1] st).res (m.namrlevs - 1) ≤ target) →
      runIters m cfg rhs target n st = ((oneIter m rhs)^[n] st, n) := by
  intro n
  induction n with
  | zero => intro st h; rfl
  | succ k ih =>
      intro st h
      simp only [runIters]
      rw [if_neg]
      · rw [ih (oneIter m rhs st) (fun j hj => by
          have hx := h (j + 1) (by omega)
          rwa [Function.iterate_succ_apply] at hx)]
        rw [Function.iterate_succ_apply]
      · rintro ⟨-, hc⟩
        have hx := h 0 (by omega)
        rw [Function.iterate_one] at hx
        exact hx hc

/-- C4: a solve that reaches the `max_iters` bound without meeting the
tolerance still returns normally: the checked entry point yields `.ok` (no
error, no abort), the caller's solution is the best current solution (the
state after `max_iters` cycles), and the returned value is the achieved
composite residual norm, left for the caller to inspect. -/
theorem solve_max_iters_returns (m : OpModel R α) (cfg : Config) (linop_bound : Bool)
    (a_sol a_rhs : List α) (tol_rel tol_abs : R)
    (hpre : precondOK m linop_bound a_sol a_rhs = true)
    (hfix : cfg.do_fixed_number_of_iters = 0)
    (hnc0 : ¬ initResnorm m a_sol a_rhs ≤ solveTarget m cfg a_sol a_rhs tol_rel tol_abs)
    (hnc : ∀ j, j < cfg.max_iters →
      ¬ MLResNormInf m
          ((oneIter m a_rhs)^[j + 1] (prepareForSolve m a_sol a_rhs)).res
          (m.namrlevs - 1) ≤ solveTarget m cfg a_sol a_rhs tol_rel tol_abs) :
    solve m cfg linop_bound a_sol a_rhs tol_rel tol_abs =
      Except.ok (solveCore m cfg a_sol a_rhs tol_rel tol_abs) ∧
    (solveCore m cfg a_sol a_rhs tol_rel tol_abs).iters = cfg.max_iters ∧
    (solveCore m cfg a_sol a_rhs tol_rel tol_abs).sol =
      ((oneIter m a_rhs)^[cfg.max_iters] (prepareForSolve m a_sol a_rhs)).sol ∧
    (solveCore m cfg a_sol a_rhs tol_rel tol_abs).returnValue =
      MLResNormInf m
        ((oneIter m a_rhs)^[cfg.max_iters] (prepareForSolve m a_sol a_rhs)).res
        (m.namrlevs - 1) ∧
    (solveCore m cfg a_sol a_rhs tol_rel tol_abs).returnValue =
      (solveCore m cfg a_sol a_rhs tol_rel tol_abs).finalResnorm0 := by
  have hrun := runIters_no_conv m cfg a_rhs
    (solveTarget m cfg a_sol a_rhs tol_rel tol_abs) hfix cfg.max_iters
    (prepareForSolve m a_sol a_rhs) hnc
  refine ⟨by simp [solve, hpre], ?_, ?_, ?_, ?_⟩ <;>
    simp [solveCore, if_neg hnc0, hfix, hrun]

theorem solve_max_iters_returns_witness :
    (precondOK stallOp true [(0 : Int)] [1] = true ∧
      ({ max_iters := 3 : Config }).do_fixed_number_of_iters = 0 ∧
      ¬ initResnorm stallOp [(0 : Int)] [1] ≤
          solveTarget stallOp { max_iters := 3 } [(0 : Int)] [1] 0 0 ∧
      (∀ j, j < ({ max_iters := 3 : Config }).max_iters →
        ¬ MLResNormInf stallOp
            ((oneIter stallOp [1])^[j + 1] (prepareForSolve stallOp [(0 : Int)] [1])).res
            (stallOp.namrlevs - 1) ≤
          solveTarget stallOp { max_iters := 3 } [(0 : Int)] [1] 0 0)) ∧
    ((solveCore stallOp { max_iters := 3 } [(0 : Int)] [1] 0 0).iters =
        ({ max_iters := 3 : Config }).max_iters ∧
      (solveCore stallOp { max_iters := 3 } [(0 : Int)] [1] 0 0).sol =
        ((oneIter stallOp [1])^[({ max_iters := 3 : Config }).max_iters]
            (prepareForSolve stallOp [(0 : Int)] [1])).sol) :=
  ⟨⟨by decide, by decide, by decide, by decide⟩,
   ⟨(solve_max_iters_returns stallOp { max_iters := 3 } true [0] [1] 0 0
       (by decide) (by decide) (by decide) (by decide)).2.1,
    (solve_max_iters_returns stallOp { max_iters := 3 } true [0] [1] 0 0
       (by decide) (by decide) (by decide) (by decide)).2.2.1⟩⟩

theorem getD_set_self {β : Type} (l : List β) (i : Nat) (v d : β) (h : i < l.length) :
    (l.set i v).getD i d = v := by
  simp [List.getD_eq_getElem?_getD, List.getElem?_set, h]

theorem getD_set_ne {β : Type} (l : List β) (i j : Nat) (v d : β) (h : i ≠ j) :
    (l.set i v).getD j d = l.getD j d := by
  simp [List.getD_eq_getElem?_getD, List.getElem?_set, h]

theorem length_setRes0 (r : List (List α)) (alev : Nat) (v : α) :
    (setRes0 r alev v).length = r.length := by
  simp [setRes0]

theorem getD_setRes0_self (r : List (List α)) (alev : Nat) (v : α) (h : alev < r.length) :
    (setRes0 r alev v).getD alev [] = (r.getD alev []).set 0 v := by
  unfold setRes0
  exact getD_set_self _ _ _ _ h

theorem getD_setRes0_ne (r : List (List α)) (alev b : Nat) (v : α) (h : alev ≠ b) :
    (setRes0 r alev v).getD b [] = r.getD b [] := by
  unfold setRes0
  exact getD_set_ne _ _ _ _ _ h

theorem inner_length_setRes0 (r : List (List α)) (alev b : Nat) (v : α) :
    ((setRes0 r alev v).getD b []).length = (r.getD b []).length := by
  by_cases hab : alev = b
  · subst hab
    by_cases hlt : alev < r.length
    · rw [getD_setRes0_self r alev v hlt, List.length_set]
    · unfold setRes0
      rw [List.set_eq_of_length_le (by omega)]
  · rw [getD_setRes0_ne r alev b v hab]

theorem length_computeMLResidual (m : OpModel R α) (sol rhs : List α) :
    ∀ (amax : Nat) (r : List (List α)),
      (computeMLResidual m sol rhs amax r).length = r.length := by
  intro amax
  induction amax with
  | zero => intro r; simp [computeMLResidual, length_setRes0]
  | succ k ih => intro r; simp [computeMLResidual, ih, length_setRes0]

theorem getD_computeMLResidual_gt (m : OpModel R α) (sol rhs : List α) :
    ∀ (amax b : Nat) (r : List (List α)), amax < b →
      (computeMLResidual m sol rhs amax r).getD b [] = r.getD b [] := by
  intro amax
  induction amax with
  | zero =>
      intro b r hb
      simp only [computeMLResidual]
      exact getD_setRes0_ne _ _ _ _ (by omega)
  | succ k ih =>
      intro b r hb
      simp only [computeMLResidual]
      rw [ih b _ (by omega), getD_setRes0_ne _ _ _ _ (by omega)]

theorem inner_length_computeMLResidual (m : OpModel R α) (sol rhs : List α) :
    ∀ (amax : Nat) (r : List (List α)) (b : Nat),
      ((computeMLResidual m sol rhs amax r).getD b []).length = (r.getD b []).length := by
  intro amax
  induction amax with
  | zero => intro r b; simp only [computeMLResidual]; exact inner_length_setRes0 _ _ _ _
  | succ k ih =>
      intro r b
      simp only [computeMLResidual]
      rw [ih, inner_length_setRes0]

/-- The residual walk really establishes the invariant: for every level in
range of a walk over nonempty per-level buffers, slot `(alev, 0)` afterwards
holds the composite residual of the walked solution. -/
theorem getD0_computeMLResidual (m : OpModel R α) (sol rhs : List α) :
    ∀ (amax : Nat) (r : List (List α)) (alev : Nat), alev ≤ amax → amax < r.length →
      0 < (r.getD alev []).length →
      ((computeMLResidual m sol rhs amax r).getD alev []).getD 0 m.zero
        = m.compResField alev sol rhs := by
  intro amax
  induction amax with
  | zero =>
      intro r alev h1 h2 h3
      have ha : alev = 0 := by omega
      subst ha
      simp only [computeMLResidual]
      rw [getD_setRes0_self r 0 _ h2, getD_set_self _ _ _ _ h3]
  | succ k ih =>
      intro r alev h1 h2 h3
      simp only [computeMLResidual]
      by_cases hc : alev ≤ k
      · refine ih _ alev hc ?_ ?_
        · rw [length_setRes0]; omega
        · rw [inner_length_setRes0]; exact h3
      · have ha : alev = k + 1 := by omega
        subst ha
        rw [getD_computeMLResidual_gt m sol rhs k (k + 1) _ (by omega),
          getD_setRes0_self r (k + 1) _ h2, getD_set_self _ _ _ _ h3]

theorem length_zeroAlloc (m : OpModel R α) : (zeroAlloc m).length = m.namrlevs := by
  simp [zeroAlloc]

theorem getD_zeroAlloc (m : OpModel R α) (alev : Nat) (h : alev < m.namrlevs) :
    (zeroAlloc m).getD alev [] = List.replicate (m.nmglevs alev) m.zero := by
  simp [zeroAlloc, List.getD_eq_getElem?_getD, List.getElem?_map, List.getElem?_range, h]

/-- The shape the engine maintains for `res`: one entry per AMR level, each
level's MG stack nonempty. -/
def resShape (m : OpModel R α) (res : List (List α)) : Prop :=
  res.length = m.namrlevs ∧ ∀ alev, alev < m.namrlevs → 0 < (res.getD alev []).length

theorem resShape_zeroAlloc (m : OpModel R α)
    (h : ∀ alev, alev < m.namrlevs → 0 < m.nmglevs alev) : resShape m (zeroAlloc m) := by
  refine ⟨length_zeroAlloc m, fun alev ha => ?_⟩
  rw [getD_zeroAlloc m alev ha]
  simpa using h alev ha

theorem resShape_computeMLResidual (m : OpModel R α) (sol rhs : List α) (amax : Nat)
    (r : List (List α)) (h : resShape m r) :
    resShape m (computeMLResidual m sol rhs amax r) := by
  refine ⟨?_, fun alev ha => ?_⟩
  · rw [length_computeMLResidual]; exact h.1
  · rw [inner_length_computeMLResidual]; exact h.2 alev ha

/-- Between cycles (after `prepareForSolve` and after each `oneIter`) the
`res` hierarchy keeps its shape and `res[alev][0]` holds the composite
residual of the current solution at every AMR level. -/
theorem iterState_invariant (m : OpModel R α) (a_sol a_rhs : List α)
    (hmg : ∀ alev, alev < m.namrlevs → 0 < m.nmglevs alev) (hn : 0 < m.namrlevs) :
    ∀ k : Nat,
      resShape m ((oneIter m a_rhs)^[k] (prepareForSolve m a_sol a_rhs)).res ∧
      ∀ alev, alev < m.namrlevs →
        ((((oneIter m a_rhs)^[k] (prepareForSolve m a_sol a_rhs)).res.getD alev []).getD 0 m.zero)
          = m.compResField alev
              ((oneIter m a_rhs)^[k] (prepareForSolve m a_sol a_rhs)).sol a_rhs := by
  intro k
  induction k with
  | zero =>
      simp only [Function.iterate_zero, id_eq]
      constructor
      · exact resShape_computeMLResidual m a_sol a_rhs _ _ (resShape_zeroAlloc m hmg)
      · intro alev ha
        refine getD0_computeMLResidual m a_sol a_rhs _ _ alev (by omega) ?_ ?_
        · rw [length_zeroAlloc]; omega
        · rw [getD_zeroAlloc m alev ha]; simpa using hmg alev ha
  | succ k ih =>
      rw [Function.iterate_succ_apply']
      constructor
      · exact resShape_computeMLResidual m _ a_rhs _ _ ih.1
      · intro alev ha
        refine getD0_computeMLResidual m _ a_rhs _ _ alev (by omega) ?_ ?_
        · show m.namrlevs - 1 <
            ((oneIter m a_rhs)^[k] (prepareForSolve m a_sol a_rhs)).res.length
          rw [ih.1.1]; omega
        · exact ih.1.2 alev ha

/-- C5: the per-level state arrays carry the AMR level as the outer index
(0 = coarsest) and the MG level as the inner index (0 = finest), as the
`res`/`cor`/`rescor` declarations of `AMReX_MLMG.H` lines 252-259 document;
between cycles `res[alev][0]` holds the latest composite residual of the
current solution at AMR level `alev`, while the transient `cor`/`rescor`
buffers are zeroed/reallocated at cycle start regardless of their previous
contents. -/
theorem res_holds_composite_residual (m : OpModel R α) (a_sol a_rhs : List α) (k : Nat)
    (hmg : ∀ alev, alev < m.namrlevs → 0 < m.nmglevs alev) (hn : 0 < m.namrlevs) :
    (∀ alev, alev < m.namrlevs →
      ((((oneIter m a_rhs)^[k] (prepareForSolve m a_sol a_rhs)).res.getD alev []).getD 0 m.zero)
        = m.compResField alev
            ((oneIter m a_rhs)^[k] (prepareForSolve m a_sol a_rhs)).sol a_rhs) ∧
    (∀ st : IterState R α,
      (cycleStart m st).cor = zeroAlloc m ∧ (cycleStart m st).rescor = zeroAlloc m) :=
  ⟨(iterState_invariant m a_sol a_rhs hmg hn k).2, fun _ => ⟨rfl, rfl⟩⟩

theorem res_holds_composite_residual_witness :
    ((∀ alev, alev < demoOp.namrlevs → 0 < demoOp.nmglevs alev) ∧ 0 < demoOp.namrlevs) ∧
    ((∀ alev, alev < demoOp.namrlevs →
      ((((oneIter demoOp [7])^[2] (prepareForSolve demoOp [(0 : Int)] [7])).res.getD alev
          []).getD 0 demoOp.zero)
        = demoOp.compResField alev
            ((oneIter demoOp [7])^[2] (prepareForSolve demoOp [(0 : Int)] [7])).sol [7]) ∧
    (∀ st : IterState Int Int,
      (cycleStart demoOp st).cor = zeroAlloc demoOp ∧
      (cycleStart demoOp st).rescor = zeroAlloc demoOp)) :=
  ⟨⟨by decide, by decide⟩,
   res_holds_composite_residual demoOp [0] [7] 2 (by decide) (by decide)⟩

/-- C6: `solve` never mutates the caller-supplied right-hand side — the
engine works on its own copy of `rhs` (member `rhs` of `AMReX_MLMG.H`
line 247, "Copy of original rhs") and every cycle reads it only — so the
right-hand side seen by the caller after any solve, successful or not, is
exactly its input; the solution vector is the only caller-visible field
state the solve updates. -/
theorem solve_preserves_rhs (m : OpModel R α) (cfg : Config) (linop_bound : Bool)
    (a_sol a_rhs : List α) (tol_rel tol_abs : R) :
    (solveCore m cfg a_sol a_rhs tol_rel tol_abs).rhs = a_rhs ∧
    ∀ r, solve m cfg linop_bound a_sol a_rhs tol_rel tol_abs = Except.ok r →
      r.rhs = a_rhs := by
  have hcore : (solveCore m cfg a_sol a_rhs tol_rel tol_abs).rhs = a_rhs := by
    simp only [solveCore]
    split
    · rfl
    · rfl
  refine ⟨hcore, fun r hr => ?_⟩
  unfold solve at hr
  split at hr
  · rw [← Except.ok.inj hr]
    exact hcore
  · exact absurd hr (by simp)

theorem solve_preserves_rhs_witness :
    (solveCore demoOp {} [(5 : Int)] [5] 0 0).rhs = [5] ∧
    ∀ r, solve demoOp {} true [(5 : Int)] [5] 0 0 = Except.ok r → r.rhs = [5] :=
  solve_preserves_rhs demoOp {} true [5] [5] 0 0

/-- One loop pass appends exactly one entry to the residual history per
cycle performed. -/
theorem runIters_history_length (m : OpModel R α) (cfg : Config) (rhs : List α)
    (target : R) :
    ∀ (n : Nat) (st : IterState R α),
      (runIters m cfg rhs target n st).1.iterFineResnorm.length
        = st.iterFineResnorm.length + (runIters m cfg rhs target n st).2 := by
  intro n
  induction n with
  | zero => intro st; rfl
  | succ k ih =>
      intro st
      simp only [runIters]
      split
      · simp [oneIter]
      · have hx := ih (oneIter m rhs st)
        simp only at hx ⊢
        rw [hx]
        simp [oneIter]
        omega

/-- C8: per-solve diagnostics are reset at the start of each solve: the
engine's post-solve counters do not depend on whatever a previous solve left
behind, and after any solve `getNumIters` equals the length of the residual
history, both counting exactly the cycles of that solve alone. -/
theorem diagnostics_reset (m : OpModel R α) (cfg : Config) (d1 d2 : Diagnostics R)
    (linop_bound : Bool) (a_sol a_rhs : List α) (tol_rel tol_abs : R) :
    solveWithEngine m cfg d1 linop_bound a_sol a_rhs tol_rel tol_abs
      = solveWithEngine m cfg d2 linop_bound a_sol a_rhs tol_rel tol_abs ∧
    (solveCore m cfg a_sol a_rhs tol_rel tol_abs).resHistory.length
      = (solveCore m cfg a_sol a_rhs tol_rel tol_abs).iters ∧
    ∀ r d, solveWithEngine m cfg d1 linop_bound a_sol a_rhs tol_rel tol_abs
        = Except.ok (r, d) →
      getNumIters d = r.iters ∧ d.m_iter_fine_resnorm0 = r.resHistory := by
  have hlen : (solveCore m cfg a_sol a_rhs tol_rel tol_abs).resHistory.length
      = (solveCore m cfg a_sol a_rhs tol_rel tol_abs).iters := by
    simp only [solveCore]
    split
    · rfl
    · have hx := runIters_history_length m cfg a_rhs
        (solveTarget m cfg a_sol a_rhs tol_rel tol_abs)
        (if cfg.do_fixed_number_of_iters = 0 then cfg.max_iters
         else cfg.do_fixed_number_of_iters)
        (prepareForSolve m a_sol a_rhs)
      simpa [prepareForSolve] using hx
  refine ⟨rfl, hlen, fun r d hr => ?_⟩
  unfold solveWithEngine solve at hr
  split at hr
  · simp only [Except.map, Except.ok.injEq, Prod.mk.injEq] at hr
    obtain ⟨hr1, hr2⟩ := hr
    subst hr1
    subst hr2
    exact ⟨hlen, rfl⟩
  · simp only [Except.map] at hr
    exact absurd hr (by simp)

theorem diagnostics_reset_witness :
    solveWithEngine demoOp {} { m_iter_fine_resnorm0 := [3], m_niters_cg := [2] }
        true [(5 : Int)] [5] 0 0
      = solveWithEngine demoOp {} { m_iter_fine_resnorm0 := [], m_niters_cg := [] }
        true [(5 : Int)] [5] 0 0 ∧
    (solveCore demoOp {} [(5 : Int)] [5] 0 0).resHistory.length
      = (solveCore demoOp {} [(5 : Int)] [5] 0 0).iters ∧
    ∀ r d, solveWithEngine demoOp {} { m_iter_fine_resnorm0 := [3], m_niters_cg := [2] }
        true [(5 : Int)] [5] 0 0 = Except.ok (r, d) →
      getNumIters d = r.iters ∧ d.m_iter_fine_resnorm0 = r.resHistory :=
  diagnostics_reset demoOp {} { m_iter_fine_resnorm0 := [3], m_niters_cg := [2] }
    { m_iter_fine_resnorm0 := [], m_niters_cg := [] } true [5] [5] 0 0

/-- C9: a `solve` whose caller preconditions are violated — `sol` or `rhs`
not of length `namrlevs`, or the operator not bound — aborts fatally instead
of returning a result; the second conjunct characterises exactly which
violations the check catches. -/
theorem solve_precondition_abort (m : OpModel R α) (cfg : Config) (linop_bound : Bool)
    (a_sol a_rhs : List α) (tol_rel tol_abs : R)
    (h : precondOK m linop_bound a_sol a_rhs = false) :
    solve m cfg linop_bound a_sol a_rhs tol_rel tol_abs
      = Except.error MLMGError.fatalAbort ∧
    (precondOK m linop_bound a_sol a_rhs = false ↔
      (a_sol.length ≠ m.namrlevs ∨ a_rhs.length ≠ m.namrlevs ∨ linop_bound = false)) := by
  constructor
  · simp [solve, h]
  · simp only [precondOK, Bool.and_eq_false_iff, beq_eq_false_iff_ne, ne_eq]
    constructor
    · rintro (⟨h1 | h2⟩ | h3)
      · exact Or.inl h1
      · exact Or.inr (Or.inl h2)
      · exact Or.inr (Or.inr (by simpa using h3))
    · rintro (h1 | h2 | h3)
      · exact Or.inl (Or.inl h1)
      · exact Or.inl (Or.inr h2)
      · exact Or.inr (by simp [h3])

theorem solve_precondition_abort_witness :
    (precondOK demoOp true ([] : List Int) [0] = false) ∧
    (solve demoOp {} true ([] : List Int) [0] 0 0 = Except.error MLMGError.fatalAbort ∧
      (precondOK demoOp true ([] : List Int) [0] = false ↔
        (([] : List Int).length ≠ demoOp.namrlevs ∨
          ([0] : List Int).length ≠ demoOp.namrlevs ∨ true = false))) :=
  ⟨by decide, solve_precondition_abort demoOp {} true [] [0] 0 0 (by decide)⟩

/-!
### Bottom-solver dispatch

`bottomSolve` (`AMReX_MLMG.H` line 139) and the strategies it dispatches to
are not implemented in the excerpt; they are modelled from spec
sections 4.2 and 7.
-/

variable {β : Type}

/-- Modelled from the spec: what a bottom-solver strategy consumes — one
CG/BiCGStab iteration `step` on the correction, one relaxation sweep
`smooth`, and the residual norm of the correction equation,
`resNorm cor = norm(res - L(cor))`. -/
structure BottomModel (R : Type) (β : Type) where
  step : β → β
  smooth : β → β
  resNorm : β → R

/-- Modelled from the spec: the bottom tolerance target
`max(bottom_reltol * norm(res), bottom_abstol)`. -/
def bottomTarget (bottom_reltol bottom_abstol rnorm0 : R) : R :=
  max (bottom_reltol * rnorm0) bottom_abstol

/-- Modelled from the spec: the CG/BiCGStab bottom iteration — check the
correction-equation residual against the target; while unconverged and
within the iteration budget, perform one iteration.  Returns the (possibly
best-effort) correction and the iteration count used. -/
def bottomLoop (bm : BottomModel R β) (target : R) : Nat → β → β × Nat
  | 0, cor => (cor, 0)
  | n + 1, cor =>
      if bm.resNorm cor ≤ target then (cor, 0)
      else ((bottomLoop bm target n (bm.step cor)).1,
            (bottomLoop bm target n (bm.step cor)).2 + 1)

/-- Modelled from the spec: the configurable bottom-solve strategies. -/
inductive BottomSolverKind
  | smoother
  | cg
  | bicgstab
  | hypre
  | petsc
deriving DecidableEq

/-- Modelled from the spec: a failure reported by an external sparse-solver
backend, which the engine treats as fatal. -/
inductive BottomError
  | externalBackendFailure
deriving DecidableEq

/-- Modelled from the spec: `bottomSolve` — dispatch on the configured
strategy: the smoother applies `nuf` relaxation sweeps and always succeeds;
CG/BiCGStab run the iteration loop up to `bottom_maxiter` and always return
their (possibly best-effort) correction with the used iteration count; the
external backends propagate a backend failure as fatal. -/
def bottomSolve (bm : BottomModel R β) (strat : BottomSolverKind)
    (nuf bottom_maxiter : Nat) (target : R) (externalOk : Bool) (cor0 : β) :
    Except BottomError (β × Nat) :=
  match strat with
  | .smoother => Except.ok (bm.smooth^[nuf] cor0, 0)
  | .cg => Except.ok (bottomLoop bm target bottom_maxiter cor0)
  | .bicgstab => Except.ok (bottomLoop bm target bottom_maxiter cor0)
  | .hypre =>
      if externalOk then Except.ok (bottomLoop bm target bottom_maxiter cor0)
      else Except.error BottomError.externalBackendFailure
  | .petsc =>
      if externalOk then Except.ok (bottomLoop bm target bottom_maxiter cor0)
      else Except.error BottomError.externalBackendFailure

theorem bottomLoop_count_le (bm : BottomModel R β) (target : R) :
    ∀ (n : Nat) (cor : β), (bottomLoop bm target n cor).2 ≤ n := by
  intro n
  induction n with
  | zero => intro cor; exact Nat.le_refl 0
  | succ k ih =>
      intro cor
      simp only [bottomLoop]
      split
      · exact Nat.zero_le _
      · exact Nat.succ_le_succ (ih (bm.step cor))

/-- If some iterate within the budget meets the target, the loop returns a
correction meeting the target. -/
theorem bottomLoop_conv (bm : BottomModel R β) (target : R) :
    ∀ (n : Nat) (cor : β) (k : Nat), k ≤ n → bm.resNorm (bm.step^[k] cor) ≤ target →
      bm.resNorm (bottomLoop bm target n cor).1 ≤ target := by
  intro n
  induction n with
  | zero =>
      intro cor k hk hc
      have hk0 : k = 0 := by omega
      subst hk0
      simpa [bottomLoop] using hc
  | succ j ih =>
      intro cor k hk hc
      simp only [bottomLoop]
      split
      · assumption
      · rcases k with - | k1
        · simp only [Function.iterate_zero, id_eq] at hc
          exact absurd hc (by assumption)
        · rw [Function.iterate_succ_apply] at hc
          exact ih (bm.step cor) k1 (by omega) hc

/-- If no iterate within the budget meets the target, the loop exhausts the
budget and returns the best-effort `step^[maxiter]` correction together
with the diagnostic count `maxiter`. -/
theorem bottomLoop_exhausted (bm : BottomModel R β) (target : R) :
    ∀ (n : Nat) (cor : β),
      (∀ j, j ≤ n → ¬ bm.resNorm (bm.step^[j] cor) ≤ target) →
      bottomLoop bm target n cor = (bm.step^[n] cor, n) := by
  intro n
  induction n with
  | zero =>
      intro cor h
      simp [bottomLoop]
  | succ j ih =>
      intro cor h
      simp only [bottomLoop]
      rw [if_neg (by simpa using h 0 (by omega))]
      rw [ih (bm.step cor) (fun i hi => by
        have hx := h (i + 1) (by omega)
        rwa [Function.iterate_succ_apply] at hx)]
      rw [Function.iterate_succ_apply]

/-- C3: the bottom-solve contract — the smoother and CG/BiCGStab strategies
never fail (they always return `.ok`); the CG loop uses at most
`bottom_maxiter` iterations; whenever the bottom tolerance is reachable
within the budget the returned correction satisfies it; and when it is not,
the best-effort correction after `bottom_maxiter` iterations is still
returned, the shortfall visible only through the returned iteration
count. -/
theorem bottomSolve_contract (bm : BottomModel R β) (nuf bottom_maxiter k : Nat)
    (target : R) (externalOk : Bool) (cor0 : β) :
    bottomSolve bm BottomSolverKind.smoother nuf bottom_maxiter target externalOk cor0
      = Except.ok (bm.smooth^[nuf] cor0, 0) ∧
    bottomSolve bm BottomSolverKind.cg nuf bottom_maxiter target externalOk cor0
      = Except.ok (bottomLoop bm target bottom_maxiter cor0) ∧
    bottomSolve bm BottomSolverKind.bicgstab nuf bottom_maxiter target externalOk cor0
      = Except.ok (bottomLoop bm target bottom_maxiter cor0) ∧
    (bottomLoop bm target bottom_maxiter cor0).2 ≤ bottom_maxiter ∧
    (k ≤ bottom_maxiter → bm.resNorm (bm.step^[k] cor0) ≤ target →
      bm.resNorm (bottomLoop bm target bottom_maxiter cor0).1 ≤ target) ∧
    ((∀ j, j ≤ bottom_maxiter → ¬ bm.resNorm (bm.step^[j] cor0) ≤ target) →
      bottomLoop bm target bottom_maxiter cor0
        = (bm.step^[bottom_maxiter] cor0, bottom_maxiter)) :=
  ⟨rfl, rfl, rfl, bottomLoop_count_le bm target bottom_maxiter cor0,
   fun hk hc => bottomLoop_conv bm target bottom_maxiter cor0 k hk hc,
   fun h => bottomLoop_exhausted bm target bottom_maxiter cor0 h⟩

/-- A concrete bottom-solver model over integers: each iteration halves the
correction-equation residual (integer division), the norm is the absolute
value. -/
def demoBottom : BottomModel Int Int :=
  { step := fun x => x / 2
    smooth := fun x => x / 2
    resNorm := fun x => |x| }

theorem bottomSolve_contract_witness :
    (2 ≤ 3 ∧ demoBottom.resNorm (demoBottom.step^[2] 4) ≤ 1) ∧
    (bottomSolve demoBottom BottomSolverKind.smoother 8 3 1 true 4
        = Except.ok (demoBottom.smooth^[8] 4, 0) ∧
      bottomSolve demoBottom BottomSolverKind.cg 8 3 1 true 4
        = Except.ok (bottomLoop demoBottom 1 3 4) ∧
      bottomSolve demoBottom BottomSolverKind.bicgstab 8 3 1 true 4
        = Except.ok (bottomLoop demoBottom 1 3 4) ∧
      (bottomLoop demoBottom 1 3 4).2 ≤ 3 ∧
      (2 ≤ 3 → demoBottom.resNorm (demoBottom.step^[2] 4) ≤ 1 →
        demoBottom.resNorm (bottomLoop demoBottom 1 3 4).1 ≤ 1) ∧
      ((∀ j, j ≤ 3 → ¬ demoBottom.resNorm (demoBottom.step^[j] 4) ≤ 1) →
        bottomLoop demoBottom 1 3 4 = (demoBottom.step^[3] 4, 3))) :=
  ⟨⟨by decide, by decide⟩, bottomSolve_contract demoBottom 8 3 2 1 true 4⟩

/-!
### Rank-local versus globally reduced norms

The `local` flag of `ResNormInf`/`MLResNormInf`/`MLRhsNormInf`
(`AMReX_MLMG.H` lines 153-155) controls the cross-rank reduction; the
reduction itself is modelled from spec section 4.1 ("Numeric semantics").
-/

/-- Modelled from the spec: the cross-rank max reduction
(`ParallelAllReduce::Max`) over the per-rank values of ranks
`0 .. nranks-1`. -/
def allReduceMax (nranks : Nat) (f : Nat → R) : R :=
  (List.range nranks).foldl (fun acc i => max acc (f i)) (f 0)

/-- Modelled from the spec: `ResNormInf(amrlev, local)` on a run of
`nranks` ranks as seen by rank `me`: the rank-local level norm, followed by
the cross-rank reduction unless `local` is set. -/
def ResNormInfRank (nranks me : Nat) (levelNorm : Nat → Nat → R) (amrlev : Nat)
    (loc : Bool) : R :=
  if loc then levelNorm me amrlev
  else allReduceMax nranks (fun rk => levelNorm rk amrlev)

/-- Modelled from the spec: `MLResNormInf(alevmax, local)` — the max of the
per-level norms over AMR levels `0 .. alevmax`, cross-rank reduced unless
`local` is set. -/
def MLResNormInfRank (nranks me : Nat) (levelNorm : Nat → Nat → R) (alevmax : Nat)
    (loc : Bool) : R :=
  let localval := fun rk => ((List.range (alevmax + 1)).map (levelNorm rk)).foldl max 0
  if loc then localval me else allReduceMax nranks localval

/-- Modelled from the spec: `MLRhsNormInf(local)` — the rank-local
right-hand-side norm, cross-rank reduced unless `local` is set. -/
def MLRhsNormInfRank (nranks me : Nat) (rhsNorm : Nat → R) (loc : Bool) : R :=
  if loc then rhsNorm me else allReduceMax nranks rhsNorm

/-- C7: on a single-rank run the `local` flag does not matter — for every
AMR level, `ResNormInf(amrlev, local=true)` equals
`ResNormInf(amrlev, local=false)`, and likewise for `MLResNormInf` and
`MLRhsNormInf`: a max reduction over one rank returns that rank's value. -/
theorem norms_single_rank (levelNorm : Nat → Nat → R) (rhsNorm : Nat → R)
    (amrlev alevmax nranks me : Nat) (h1 : nranks = 1) (h2 : me = 0) :
    ResNormInfRank nranks me levelNorm amrlev true
      = ResNormInfRank nranks me levelNorm amrlev false ∧
    MLResNormInfRank nranks me levelNorm alevmax true
      = MLResNormInfRank nranks me levelNorm alevmax false ∧
    MLRhsNormInfRank nranks me rhsNorm true
      = MLRhsNormInfRank nranks me rhsNorm false := by
  subst h1
  subst h2
  refine ⟨?_, ?_, ?_⟩ <;>
    simp [ResNormInfRank, MLResNormInfRank, MLRhsNormInfRank, allReduceMax,
      List.range_succ, max_self]

theorem norms_single_rank_witness :
    ((1 : Nat) = 1 ∧ (0 : Nat) = 0) ∧
    (ResNormInfRank 1 0 (fun rk a => (rk + a : Int)) 1 true
        = ResNormInfRank 1 0 (fun rk a => (rk + a : Int)) 1 false ∧
      MLResNormInfRank 1 0 (fun rk a => (rk + a : Int)) 2 true
        = MLResNormInfRank 1 0 (fun rk a => (rk + a : Int)) 2 false ∧
      MLRhsNormInfRank 1 0 (fun rk => (rk + 5 : Int)) true
        = MLRhsNormInfRank 1 0 (fun rk => (rk + 5 : Int)) false) :=
  ⟨⟨rfl, rfl⟩,
   norms_single_rank (fun rk a => (rk + a : Int)) (fun rk => (rk + 5 : Int))
     1 2 1 0 rfl rfl⟩

end MLMG

end AmrexProof
